import Mathlib

/-!
Verification development for `src/lab6.py`: an XML file handler
(`XMLFileHandler` with `read` / `write` / `append`), a custom error taxonomy
(`FileNotFoundError`, `FileCorruptedError`) and a `logged` decorator that
audits each operation to either the console stream or the file
`file_operations.log`, closing its logging handler in a `finally` block.

The embedding is shallow.  XML trees are modelled by the inductive type
`XMLElement` mirroring `xml.etree.ElementTree.Element` (tag, attributes,
text, tail, ordered children).  The standard library's serializer and
parser are modelled at tree level: a file holds either a well-formed
document (`FileData.xml`, the tree that `tree.write` serialized) or raw
unparseable bytes (`FileData.raw`); `ET.parse` returns the stored tree and
fails with a parse error on raw content.  `ET.indent` is modelled faithfully
from its CPython implementation (whitespace-only text/tail fields are
replaced by newline-plus-two-space indentation, the last child of each
element is dedented).  The filesystem, the audit log file and the console
stream are explicit components of a `SysState` record threaded through every
operation.
-/

set_option autoImplicit false

/-- An element of an XML document, mirroring `xml.etree.ElementTree.Element`:
a tag, an ordered attribute list, optional text content, optional tail text
(the text following the element's closing tag), and an ordered list of
children. -/
inductive XMLElement : Type where
  | elem (tag : String) (attrib : List (String × String))
      (text : Option String) (tail : Option String)
      (children : List XMLElement)
deriving Repr

/-- The tag of an element. -/
def XMLElement.tag : XMLElement → String
  | .elem t _ _ _ _ => t

/-- The attribute list of an element. -/
def XMLElement.attrib : XMLElement → List (String × String)
  | .elem _ a _ _ _ => a

/-- The text content of an element (`None` in Python is `none`). -/
def XMLElement.text : XMLElement → Option String
  | .elem _ _ tx _ _ => tx

/-- The tail text of an element. -/
def XMLElement.tail : XMLElement → Option String
  | .elem _ _ _ tl _ => tl

/-- The ordered children of an element. -/
def XMLElement.children : XMLElement → List XMLElement
  | .elem _ _ _ _ c => c

/-- Replace the text field of an element, as the assignment `elem.text = s`
does in Python. -/
def XMLElement.withText : XMLElement → Option String → XMLElement
  | .elem t a _ tl c, tx => .elem t a tx tl c

/-- Replace the tail field of an element, as the assignment `elem.tail = s`
does in Python. -/
def XMLElement.withTail : XMLElement → Option String → XMLElement
  | .elem t a tx _ c, tl => .elem t a tx tl c

/-- `root.append(new_element)`: add a node as the last child. -/
def XMLElement.appendChild : XMLElement → XMLElement → XMLElement
  | .elem t a tx tl c, n => .elem t a tx tl (c ++ [n])

/-- Whether a string is empty or all whitespace: the condition under which
`not s.strip()` is truthy in Python (stated on the character list of the
string). -/
def isWS (s : String) : Bool := s.data.all Char.isWhitespace

/-- The Python test `not x or not x.strip()` on an optional string: `None`,
the empty string and whitespace-only strings are blank. -/
def blankOpt : Option String → Bool
  | none => true
  | some s => isWS s

/-- Normalize an optional text/tail field by collapsing blank values
(`None`, empty, whitespace-only) to `none` and keeping meaningful text
exactly as it is. -/
def normWS (o : Option String) : Option String :=
  if blankOpt o then none else o

mutual

/-- The whitespace-normalized view of an element: tag and attributes kept,
text and tail normalized by `normWS`, children normalized recursively.
`ET.indent` only ever replaces blank text/tail fields by whitespace
indentation, so it leaves this view unchanged — in particular all
meaningful (non-blank) text content is preserved exactly. -/
def core : XMLElement → XMLElement
  | .elem t a tx tl c => .elem t a (normWS tx) (normWS tl) (coreList c)

/-- Whitespace-normalized views of a list of elements, in order. -/
def coreList : List XMLElement → List XMLElement
  | [] => []
  | c :: cs => core c :: coreList cs

end

/-- The indentation string at nesting depth `k`: a newline extended by one
copy of the indentation unit per level (`indentations[level] + space` in
CPython's `ElementTree.indent`). -/
def ind (space : String) : Nat → String
  | 0 => "\n"
  | k + 1 => ind space k ++ space

/-- The dedent step at the end of CPython's `_indent_children` loop: once
every child's tail has been set, the last child's tail, when whitespace-only,
is replaced by the indentation of the parent's own level. -/
def dedentLast (space : String) (level : Nat) : List XMLElement → List XMLElement
  | [] => []
  | [c] =>
    if isWS (c.tail.getD "") then [c.withTail (some (ind space level))] else [c]
  | c :: c' :: cs => c :: dedentLast space level (c' :: cs)

mutual

/-- CPython's `_indent_children(elem, level)`: set the element's text to the
child-level indentation when blank, recurse into children that themselves
have children, set each child's tail to the child-level indentation when
blank, and dedent the last child's tail to the element's own level. -/
def indentElem (space : String) (level : Nat) : XMLElement → XMLElement
  | .elem t a tx tl c =>
    .elem t a (if blankOpt tx then some (ind space (level + 1)) else tx) tl
      (dedentLast space level (indentKids space (level + 1) c))

/-- The loop body of `_indent_children` over the children at child level
`clvl`: recurse into a child when it has children, then set its tail when
blank. -/
def indentKids (space : String) (clvl : Nat) : List XMLElement → List XMLElement
  | [] => []
  | c :: cs =>
    let c1 := if c.children.isEmpty then c else indentElem space clvl c
    let c2 := if blankOpt c1.tail then c1.withTail (some (ind space clvl)) else c1
    c2 :: indentKids space clvl cs

end

/-- `ET.indent(tree, space="  ")` on a whole tree: a childless root is left
unchanged, otherwise `_indent_children(root, 0)` runs. -/
def indentTree (space : String) (root : XMLElement) : XMLElement :=
  if root.children.isEmpty then root else indentElem space 0 root

/-- The contents of a file on disk, at the level of the standard library's
serializer: either a well-formed serialized document holding the tree that
`tree.write` produced, or raw content that is not a well-formed document
(such as an unclosed tag).  The serializer/parser pair of
`xml.etree.ElementTree` is modelled as an exact inverse on well-formed
documents. -/
inductive FileData : Type where
  | xml (root : XMLElement)
  | raw (s : String)
deriving Repr

/-- One file of the modelled filesystem: its contents plus its read and
write permission bits. -/
structure FileEntry : Type where
  data : FileData
  canRead : Bool
  canWrite : Bool
deriving Repr

/-- Severity of an audit record, mirroring `logging.INFO` / `logging.ERROR`. -/
inductive LogLevel : Type where
  | info
  | error
deriving Repr, DecidableEq

/-- One audit record as formatted by
`'%(asctime)s - %(name)s - %(levelname)s - %(message)s'`; the timestamp is
abstracted away, the logger name (the wrapped function's name), the level
and the message are kept. -/
structure LogRecord : Type where
  logger : String
  level : LogLevel
  msg : String
deriving Repr, DecidableEq

/-- The global state threaded through every operation: the document
filesystem (an association list from path to file entry), the contents of
the audit log file `file_operations.log`, and the console stream. -/
structure SysState : Type where
  files : List (String × FileEntry)
  logFile : List LogRecord
  console : List LogRecord
deriving Repr

/-- Look a path up in the filesystem. -/
def findFile : List (String × FileEntry) → String → Option FileEntry
  | [], _ => none
  | (q, e) :: fs, p => if q = p then some e else findFile fs p

/-- Store data at a path: replace the contents of an existing file (its
permission bits are unchanged), or create a new readable and writable
file. -/
def setData : List (String × FileEntry) → String → FileData → List (String × FileEntry)
  | [], p, d => [(p, ⟨d, true, true⟩)]
  | (q, e) :: fs, p, d =>
    if q = p then (q, { e with data := d }) :: fs else (q, e) :: setData fs p d

/-- A raw failure of the underlying library or operating system before the
handler translates it: a markup parse error (`xml.etree.ElementTree.ParseError`),
an access denial (`PermissionError`), or any other I/O failure carrying its
message (`OSError` and the rest of `Exception`). -/
inductive RawError : Type where
  | parseError (msg : String)
  | permissionError
  | ioError (msg : String)
deriving Repr, DecidableEq

/-- `ET.parse(path)` on the modelled filesystem: a missing file raises an
I/O error, a file without read permission raises `PermissionError`, raw
unparseable content raises a parse error (its message modelled as a function
of the content), and a well-formed document yields its root tree. -/
def etParse (fs : List (String × FileEntry)) (p : String) : Except RawError XMLElement :=
  match findFile fs p with
  | none => .error (.ioError ("No such file or directory: " ++ p))
  | some f =>
    if f.canRead then
      match f.data with
      | .xml r => .ok r
      | .raw s => .error (.parseError ("not well-formed: " ++ s))
    else .error .permissionError

/-- `tree.write(path, ...)` on the modelled filesystem: writing to an
existing file without write permission raises `PermissionError`; otherwise
the file's contents are replaced whole (a missing file is created). -/
def etWrite (fs : List (String × FileEntry)) (p : String) (d : FileData) :
    Except RawError (List (String × FileEntry)) :=
  match findFile fs p with
  | none => .ok (setData fs p d)
  | some f => if f.canWrite then .ok (setData fs p d) else .error .permissionError

/-- The error taxonomy of `lab6.py`: `FileNotFoundError(filepath)` and
`FileCorruptedError(filepath, reason)` (a missing reason is the empty
string, matching the `reason=""` default). -/
inductive AppError : Type where
  | notFound (path : String)
  | corrupted (path : String) (reason : String)
deriving Repr, DecidableEq

/-- The message each exception class builds in its constructor. -/
def AppError.message : AppError → String
  | .notFound p => "Файл не знайдено: " ++ p
  | .corrupted p r =>
    if r = "" then "Файл пошкоджено: " ++ p
    else "Файл пошкоджено: " ++ p ++ " (" ++ r ++ ")"

/-- Whether an error is a `FileCorruptedError`: the dynamic type test the
decorator's `except exception_type` clause performs when instantiated with
`FileCorruptedError`. -/
def AppError.isCorrupted : AppError → Bool
  | .corrupted _ _ => true
  | .notFound _ => false

/-- The body of `XMLFileHandler.read` without its decorator: parse the file
at the path, translating a parse error, a permission error and any other
exception into `FileCorruptedError` with the corresponding reason.  The
state is returned unchanged: reading performs no write. -/
def read_body (fp : String) (st : SysState) :
    Except AppError XMLElement × SysState :=
  match etParse st.files fp with
  | .ok r => (.ok r, st)
  | .error (.parseError m) => (.error (.corrupted fp ("XML помилка: " ++ m)), st)
  | .error .permissionError => (.error (.corrupted fp "Немає прав для читання"), st)
  | .error (.ioError m) => (.error (.corrupted fp m), st)

/-- The body of `XMLFileHandler.write` without its decorator: indent the
given root (`ET.indent(tree, space="  ")`) and serialize it as the whole
contents of the path, translating a permission error and any other
exception into `FileCorruptedError`. -/
def write_body (fp : String) (root : XMLElement) (st : SysState) :
    Except AppError Unit × SysState :=
  match etWrite st.files fp (.xml (indentTree "  " root)) with
  | .ok fs2 => (.ok (), { st with files := fs2 })
  | .error .permissionError => (.error (.corrupted fp "Немає прав для запису"), st)
  | .error (.parseError m) => (.error (.corrupted fp m), st)
  | .error (.ioError m) => (.error (.corrupted fp m), st)

/-- The body of `XMLFileHandler.append` without its decorator: parse the
existing document, add the new element as the last child of its root,
re-indent and serialize back to the same path, translating a parse error,
a permission error and any other exception into `FileCorruptedError`. -/
def append_body (fp : String) (n : XMLElement) (st : SysState) :
    Except AppError Unit × SysState :=
  match etParse st.files fp with
  | .error (.parseError m) => (.error (.corrupted fp ("XML помилка: " ++ m)), st)
  | .error .permissionError => (.error (.corrupted fp "Немає прав"), st)
  | .error (.ioError m) => (.error (.corrupted fp m), st)
  | .ok r =>
    match etWrite st.files fp (.xml (indentTree "  " (r.appendChild n))) with
    | .ok fs2 => (.ok (), { st with files := fs2 })
    | .error .permissionError => (.error (.corrupted fp "Немає прав"), st)
    | .error (.parseError m) => (.error (.corrupted fp m), st)
    | .error (.ioError m) => (.error (.corrupted fp m), st)

/-- The audit destination selected by the decorator's `mode` argument:
`logging.StreamHandler()` for `"console"`, `logging.FileHandler("file_operations.log")`
for `"file"`. -/
inductive Dest : Type where
  | console
  | file
deriving Repr, DecidableEq

/-- The logging handler opened by one audited call: its destination, whether
its underlying stream is open (`handler.close()` clears it) and whether it
is attached to the logger (`logger.removeHandler(handler)` clears it). -/
structure DestHandle : Type where
  dest : Dest
  isOpen : Bool
  attached : Bool
deriving Repr, DecidableEq

/-- Append a record to the chosen destination. -/
def emit (d : Dest) (rec : LogRecord) (st : SysState) : SysState :=
  match d with
  | .console => { st with console := st.console ++ [rec] }
  | .file => { st with logFile := st.logFile ++ [rec] }

/-- Emission through a handle: an open handle writes to its destination. -/
def emitH (h : DestHandle) (rec : LogRecord) (st : SysState) : SysState :=
  if h.isOpen then emit h.dest rec st else st

/-- `handler.close()` followed by `logger.removeHandler(handler)`: the
`finally` block of the decorator. -/
def closeHandle (h : DestHandle) : DestHandle :=
  { h with isOpen := false, attached := false }

/-- The `logged(exception_type, mode)` decorator applied to an operation.
A fresh logging handler is opened for the chosen destination; the record
`"Виклик <name>"` is emitted; the wrapped operation runs; on success the
record `"<name> виконано успішно"` is emitted and the result returned
unchanged; on an error satisfying the watched predicate (the dynamic test
against `exception_type`, whose class name is `watchedName`) an error record
`"<watchedName>: <message>"` is emitted and the same error re-raised; any
other error propagates with no error record.  On every one of these exit
paths the `finally` block closes and detaches the handler, which is
returned alongside the result and state. -/
def logged {α : Type} (mode : Dest) (watchedName : String)
    (watched : AppError → Bool) (name : String)
    (op : SysState → Except AppError α × SysState) (st : SysState) :
    Except AppError α × SysState × DestHandle :=
  let h : DestHandle := ⟨mode, true, true⟩
  let st1 := emitH h ⟨name, LogLevel.info, "Виклик " ++ name⟩ st
  match op st1 with
  | (.ok a, st2) =>
    (.ok a, emitH h ⟨name, LogLevel.info, name ++ " виконано успішно"⟩ st2,
      closeHandle h)
  | (.error e, st2) =>
    if watched e then
      (.error e,
        emitH h ⟨name, LogLevel.error, watchedName ++ ": " ++ e.message⟩ st2,
        closeHandle h)
    else (.error e, st2, closeHandle h)

/-- A constructed handler: it stores the filepath it was given. -/
structure Handler : Type where
  filepath : String
deriving Repr, DecidableEq

/-- `XMLFileHandler.__init__`: store the path and raise
`FileNotFoundError(filepath)` when `os.path.exists(filepath)` is false. -/
def XMLFileHandler.init (fp : String) (st : SysState) : Except AppError Handler :=
  if (findFile st.files fp).isSome then .ok ⟨fp⟩ else .error (.notFound fp)

/-- `XMLFileHandler.read`, decorated with
`logged(FileCorruptedError, mode="console")`. -/
def XMLFileHandler.read (h : Handler) (st : SysState) :
    Except AppError XMLElement × SysState × DestHandle :=
  logged .console "FileCorruptedError" AppError.isCorrupted "read"
    (read_body h.filepath) st

/-- `XMLFileHandler.write`, decorated with
`logged(FileCorruptedError, mode="file")`. -/
def XMLFileHandler.write (h : Handler) (root : XMLElement) (st : SysState) :
    Except AppError Unit × SysState × DestHandle :=
  logged .file "FileCorruptedError" AppError.isCorrupted "write"
    (write_body h.filepath root) st

/-- `XMLFileHandler.append`, decorated with
`logged(FileCorruptedError, mode="file")`. -/
def XMLFileHandler.append (h : Handler) (n : XMLElement) (st : SysState) :
    Except AppError Unit × SysState × DestHandle :=
  logged .file "FileCorruptedError" AppError.isCorrupted "append"
    (append_body h.filepath n) st

/-- The record emitted at the start of every audited call. -/
def invokeRec (name : String) : LogRecord :=
  ⟨name, LogLevel.info, "Виклик " ++ name⟩

/-- The state after the invocation record has been emitted, on which the
wrapped operation runs. -/
def stepState (mode : Dest) (name : String) (st : SysState) : SysState :=
  emitH ⟨mode, true, true⟩ (invokeRec name) st

/-- Both permission bits of the file at a path, when it exists: the
precondition under which a write to the path and a read back both go
through. -/
def goodPerm (fs : List (String × FileEntry)) (fp : String) : Bool :=
  match findFile fs fp with
  | none => true
  | some e => e.canRead && e.canWrite

/-- N sequential `append` calls, threading the state through each audited
call (the demonstration's pattern of repeated `handler.append(...)`). -/
def appendAll (h : Handler) (ns : List XMLElement) (st : SysState) : SysState :=
  ns.foldl (fun s n => (XMLFileHandler.append h n s).2.1) st

/-- Sample child element, as in the demonstration driver. -/
def item1 : XMLElement :=
  .elem "item" [("id", "1")] (some "Перший елемент") none []

/-- Sample element to append, as in the demonstration driver. -/
def item2 : XMLElement :=
  .elem "item" [("id", "2")] (some "Другий елемент") none []

/-- Sample document root with one child. -/
def dataRoot : XMLElement := .elem "data" [] none none [item1]

/-- Sample replacement root, as in the demonstration driver's overwrite. -/
def newRoot : XMLElement :=
  .elem "data" [] none none
    [.elem "item" [("id", "100")] (some "Новий вміст") none []]

/-- A well-formed document file with both permissions. -/
def demoEntry : FileEntry := ⟨.xml dataRoot, true, true⟩

/-- A file holding unparseable markup (an unclosed tag), readable. -/
def badEntry : FileEntry := ⟨.raw "<data><item>Незакритий тег", true, true⟩

/-- A sample filesystem with one well-formed and one corrupt document, empty
audit log and console. -/
def demoState : SysState :=
  ⟨[("demo.xml", demoEntry), ("bad.xml", badEntry)], [], []⟩

/-- Handler over the well-formed document. -/
def hDemo : Handler := ⟨"demo.xml"⟩

/-- Handler over the corrupt document. -/
def hBad : Handler := ⟨"bad.xml"⟩

/-- A sample operation that always raises `FileCorruptedError`. -/
def failOp : SysState → Except AppError Unit × SysState :=
  fun s => (.error (.corrupted "demo.xml" "зламано"), s)

/-- A sample operation that always succeeds. -/
def okOp : SysState → Except AppError Unit × SysState := fun s => (.ok (), s)

theorem coreList_append (a b : List XMLElement) :
    coreList (a ++ b) = coreList a ++ coreList b := by
  induction a with
  | nil => rfl
  | cons c cs ih => simp [coreList, ih]

theorem core_def (e : XMLElement) :
    core e = .elem e.tag e.attrib (normWS e.text) (normWS e.tail) (coreList e.children) := by
  cases e with
  | elem t a tx tl c => rfl

/-- From equal normalized views, equal normalized child lists. -/
theorem core_eq_children {a b : XMLElement} (h : core a = core b) :
    coreList a.children = coreList b.children := by
  cases a with
  | elem t1 a1 tx1 tl1 c1 =>
    cases b with
    | elem t2 a2 tx2 tl2 c2 =>
      simp only [core, XMLElement.elem.injEq] at h
      simp only [XMLElement.children]
      exact h.2.2.2.2

theorem normWS_of_blank (o : Option String) (hb : blankOpt o = true) :
    normWS o = none := by
  unfold normWS
  rw [hb]
  rfl

theorem blankOpt_getD (o : Option String) (hb : blankOpt o = true) :
    isWS (o.getD "") = true := by
  cases o with
  | none => rfl
  | some s => exact hb

theorem blankOpt_of_getD (o : Option String) (hb : isWS (o.getD "") = true) :
    blankOpt o = true := by
  cases o with
  | none => rfl
  | some s => exact hb

theorem isWS_append (a b : String) (ha : isWS a = true) (hb : isWS b = true) :
    isWS (a ++ b) = true := by
  unfold isWS at ha hb ⊢
  rw [String.data_append, List.all_append, ha, hb]
  rfl

theorem isWS_ind (space : String) (hsp : isWS space = true) :
    ∀ k, isWS (ind space k) = true
  | 0 => rfl
  | k + 1 => isWS_append _ _ (isWS_ind space hsp k) hsp

/-- Replacing a blank tail by a whitespace string does not change the
normalized view. -/
theorem core_withTail_blank (e : XMLElement) (s : String)
    (hs : isWS s = true) (hb : blankOpt e.tail = true) :
    core (e.withTail (some s)) = core e := by
  cases e with
  | elem t a tx tl c =>
    simp only [XMLElement.withTail, core]
    have hb2 : blankOpt tl = true := hb
    rw [normWS_of_blank _ hb2, normWS_of_blank (some s) hs]

theorem coreList_dedentLast (space : String) (level : Nat)
    (hsp : isWS space = true) :
    ∀ cs, coreList (dedentLast space level cs) = coreList cs
  | [] => rfl
  | [c] => by
    simp only [dedentLast]
    split
    · rename_i hws
      simp only [coreList]
      rw [core_withTail_blank _ _ (isWS_ind space hsp level)
        (blankOpt_of_getD _ hws)]
    · rfl
  | c :: c' :: cs => by
    simp only [dedentLast, coreList]
    rw [coreList_dedentLast space level hsp (c' :: cs)]
    simp [coreList]

mutual

/-- Indentation does not change an element's whitespace-normalized view:
blank text is replaced by whitespace (still blank), and non-blank text,
tails, tags and attributes are untouched. -/
theorem core_indentElem (space : String) (level : Nat) (e : XMLElement)
    (hsp : isWS space = true) :
    core (indentElem space level e) = core e := by
  cases e with
  | elem t a tx tl c =>
    simp only [indentElem, core, coreList_dedentLast space level hsp,
      coreList_indentKids space (level + 1) c hsp]
    by_cases hb : blankOpt tx = true
    · rw [if_pos hb, normWS_of_blank _ hb,
        normWS_of_blank (some (ind space (level + 1))) (isWS_ind space hsp (level + 1))]
    · rw [if_neg hb]

/-- The child-processing loop does not change the normalized views of the
children. -/
theorem coreList_indentKids (space : String) (clvl : Nat) (cs : List XMLElement)
    (hsp : isWS space = true) :
    coreList (indentKids space clvl cs) = coreList cs := by
  cases cs with
  | nil => rfl
  | cons c cs =>
    simp only [indentKids, coreList, List.cons.injEq]
    refine ⟨?_, coreList_indentKids space clvl cs hsp⟩
    split
    · split
      · rename_i hbt
        exact core_withTail_blank _ _ (isWS_ind space hsp clvl) hbt
      · rfl
    · have h := core_indentElem space clvl c hsp
      split
      · rename_i hbt
        rw [core_withTail_blank _ _ (isWS_ind space hsp clvl) hbt, h]
      · exact h

end

theorem core_indentTree (space : String) (root : XMLElement)
    (hsp : isWS space = true) :
    core (indentTree space root) = core root := by
  unfold indentTree
  split
  · rfl
  · exact core_indentElem space 0 root hsp

theorem emitH_files (h : DestHandle) (rec : LogRecord) (st : SysState) :
    (emitH h rec st).files = st.files := by
  cases h with
  | mk d o a => cases d <;> cases o <;> rfl

theorem stepState_files (mode : Dest) (name : String) (st : SysState) :
    (stepState mode name st).files = st.files :=
  emitH_files _ _ _

theorem logged_result {α : Type} (mode : Dest) (wn : String)
    (w : AppError → Bool) (name : String)
    (op : SysState → Except AppError α × SysState) (st : SysState) :
    (logged mode wn w name op st).1 = (op (stepState mode name st)).1 := by
  unfold logged stepState invokeRec
  dsimp only
  rcases hop : op (emitH ⟨mode, true, true⟩ ⟨name, LogLevel.info, "Виклик " ++ name⟩ st)
    with ⟨res, st2⟩
  cases res with
  | ok a => rfl
  | error e =>
    by_cases hw : w e = true
    · simp [hw]
    · simp [hw]

theorem logged_files {α : Type} (mode : Dest) (wn : String)
    (w : AppError → Bool) (name : String)
    (op : SysState → Except AppError α × SysState) (st : SysState) :
    (logged mode wn w name op st).2.1.files = ((op (stepState mode name st)).2).files := by
  unfold logged stepState invokeRec
  dsimp only
  rcases hop : op (emitH ⟨mode, true, true⟩ ⟨name, LogLevel.info, "Виклик " ++ name⟩ st)
    with ⟨res, st2⟩
  cases res with
  | ok a => simp [emitH_files]
  | error e =>
    by_cases hw : w e = true
    · simp [hw, emitH_files]
    · simp [hw]

theorem logged_handle {α : Type} (mode : Dest) (wn : String)
    (w : AppError → Bool) (name : String)
    (op : SysState → Except AppError α × SysState) (st : SysState) :
    (logged mode wn w name op st).2.2 = ⟨mode, false, false⟩ := by
  unfold logged
  dsimp only
  rcases op (emitH ⟨mode, true, true⟩ ⟨name, LogLevel.info, "Виклик " ++ name⟩ st)
    with ⟨res, st2⟩
  cases res with
  | ok a => rfl
  | error e =>
    by_cases hw : w e = true
    · simp [hw, closeHandle]
    · simp [hw, closeHandle]

theorem logged_log_file {α : Type} (wn : String)
    (w : AppError → Bool) (name : String)
    (op : SysState → Except AppError α × SysState) (st : SysState)
    (hpres : ∀ s, ((op s).2).logFile = s.logFile ∧ ((op s).2).console = s.console)
    (hw : ∀ s e, (op s).1 = Except.error e → w e = true) :
    ∃ rec2 : LogRecord,
      (logged .file wn w name op st).2.1.logFile = st.logFile ++ [invokeRec name, rec2] ∧
      (logged .file wn w name op st).2.1.console = st.console := by
  unfold logged
  dsimp only
  have hstep : emitH ⟨Dest.file, true, true⟩ ⟨name, LogLevel.info, "Виклик " ++ name⟩ st =
      { st with logFile := st.logFile ++ [invokeRec name] } := rfl
  rcases hop : op (emitH ⟨Dest.file, true, true⟩ ⟨name, LogLevel.info, "Виклик " ++ name⟩ st)
    with ⟨res, st2⟩
  have hp := hpres (emitH ⟨Dest.file, true, true⟩ ⟨name, LogLevel.info, "Виклик " ++ name⟩ st)
  rw [hop] at hp
  rw [hstep] at hp
  cases res with
  | ok a =>
    refine ⟨⟨name, LogLevel.info, name ++ " виконано успішно"⟩, ?_, ?_⟩
    · show (st2.logFile ++ [⟨name, LogLevel.info, name ++ " виконано успішно"⟩]) = _
      rw [hp.1]
      simp
    · show st2.console = st.console
      exact hp.2
  | error e =>
    have hwe : w e = true := by
      have := hw (emitH ⟨Dest.file, true, true⟩ ⟨name, LogLevel.info, "Виклик " ++ name⟩ st) e
      rw [hop] at this
      exact this rfl
    dsimp only
    rw [if_pos hwe]
    refine ⟨⟨name, LogLevel.error, wn ++ ": " ++ e.message⟩, ?_, ?_⟩
    · show (st2.logFile ++ [⟨name, LogLevel.error, wn ++ ": " ++ e.message⟩]) = _
      rw [hp.1]
      simp
    · show st2.console = st.console
      exact hp.2

theorem logged_log_console {α : Type} (wn : String)
    (w : AppError → Bool) (name : String)
    (op : SysState → Except AppError α × SysState) (st : SysState)
    (hpres : ∀ s, ((op s).2).logFile = s.logFile ∧ ((op s).2).console = s.console)
    (hw : ∀ s e, (op s).1 = Except.error e → w e = true) :
    (logged .console wn w name op st).2.1.logFile = st.logFile ∧
    ∃ rec2 : LogRecord,
      (logged .console wn w name op st).2.1.console = st.console ++ [invokeRec name, rec2] := by
  unfold logged
  dsimp only
  have hstep : emitH ⟨Dest.console, true, true⟩ ⟨name, LogLevel.info, "Виклик " ++ name⟩ st =
      { st with console := st.console ++ [invokeRec name] } := rfl
  rcases hop : op (emitH ⟨Dest.console, true, true⟩ ⟨name, LogLevel.info, "Виклик " ++ name⟩ st)
    with ⟨res, st2⟩
  have hp := hpres (emitH ⟨Dest.console, true, true⟩ ⟨name, LogLevel.info, "Виклик " ++ name⟩ st)
  rw [hop] at hp
  rw [hstep] at hp
  cases res with
  | ok a =>
    refine ⟨hp.1, ⟨name, LogLevel.info, name ++ " виконано успішно"⟩, ?_⟩
    show (st2.console ++ [⟨name, LogLevel.info, name ++ " виконано успішно"⟩]) = _
    rw [hp.2]
    simp
  | error e =>
    have hwe : w e = true := by
      have := hw (emitH ⟨Dest.console, true, true⟩ ⟨name, LogLevel.info, "Виклик " ++ name⟩ st) e
      rw [hop] at this
      exact this rfl
    dsimp only
    rw [if_pos hwe]
    refine ⟨hp.1, ⟨name, LogLevel.error, wn ++ ": " ++ e.message⟩, ?_⟩
    show (st2.console ++ [⟨name, LogLevel.error, wn ++ ": " ++ e.message⟩]) = _
    rw [hp.2]
    simp

theorem findFile_setData (fs : List (String × FileEntry)) (p : String) (d : FileData) :
    findFile (setData fs p d) p =
      some ⟨d, ((findFile fs p).map FileEntry.canRead).getD true,
        ((findFile fs p).map FileEntry.canWrite).getD true⟩ := by
  induction fs with
  | nil => simp [setData, findFile]
  | cons qe fs ih =>
    rcases qe with ⟨q, e⟩
    by_cases hq : q = p
    · simp [setData, findFile, hq]
    · simp [setData, findFile, hq, ih]

theorem goodPerm_setData (fs : List (String × FileEntry)) (p : String) (d : FileData)
    (hg : goodPerm fs p = true) : goodPerm (setData fs p d) p = true := by
  unfold goodPerm at hg ⊢
  rw [findFile_setData]
  cases hf : findFile fs p with
  | none => simp [hf]
  | some e =>
    rw [hf] at hg
    simp only [hf, Option.map_some, Option.getD_some]
    exact hg

theorem etWrite_good (fs : List (String × FileEntry)) (p : String) (d : FileData)
    (hg : goodPerm fs p = true) : etWrite fs p d = .ok (setData fs p d) := by
  unfold etWrite
  unfold goodPerm at hg
  cases hf : findFile fs p with
  | none => rfl
  | some e =>
    rw [hf] at hg
    simp only [Bool.and_eq_true] at hg
    simp [hg.2]

theorem etParse_setData_xml (fs : List (String × FileEntry)) (p : String)
    (r : XMLElement) (hg : goodPerm fs p = true) :
    etParse (setData fs p (.xml r)) p = .ok r := by
  unfold etParse
  rw [findFile_setData]
  unfold goodPerm at hg
  cases hf : findFile fs p with
  | none => simp [hf]
  | some e =>
    rw [hf] at hg
    simp only [Bool.and_eq_true] at hg
    simp [hf, hg.1]

theorem read_body_ok (fp : String) (st : SysState) (e : FileEntry) (r : XMLElement)
    (hf : findFile st.files fp = some e) (hr : e.canRead = true)
    (hd : e.data = FileData.xml r) :
    read_body fp st = (.ok r, st) := by
  unfold read_body etParse
  rw [hf]
  dsimp only
  rw [hd]
  simp [hr]

theorem write_body_good (fp : String) (root : XMLElement) (st : SysState)
    (hg : goodPerm st.files fp = true) :
    write_body fp root st =
      (.ok (), { st with files := setData st.files fp (.xml (indentTree "  " root)) }) := by
  unfold write_body
  rw [etWrite_good _ _ _ hg]

theorem append_body_good (fp : String) (n : XMLElement) (st : SysState)
    (e : FileEntry) (r : XMLElement)
    (hf : findFile st.files fp = some e) (hd : e.data = FileData.xml r)
    (hr : e.canRead = true) (hw : e.canWrite = true) :
    append_body fp n st =
      (.ok (), { st with
        files := setData st.files fp (.xml (indentTree "  " (r.appendChild n))) }) := by
  have hg : goodPerm st.files fp = true := by
    unfold goodPerm
    rw [hf]
    simp [hr, hw]
  unfold append_body
  have hp : etParse st.files fp = .ok r := by
    unfold etParse
    rw [hf]
    dsimp only
    rw [hd]
    simp [hr]
  rw [hp]
  dsimp only
  rw [etWrite_good _ _ _ hg]

theorem coreList_children_indentTree (space : String) (r : XMLElement)
    (hsp : isWS space = true) :
    coreList (indentTree space r).children = coreList r.children :=
  core_eq_children (core_indentTree space r hsp)

theorem appendChild_children (r n : XMLElement) :
    (r.appendChild n).children = r.children ++ [n] := by
  cases r with
  | elem t a tx tl c => rfl

theorem read_body_state (fp : String) (st : SysState) : (read_body fp st).2 = st := by
  unfold read_body
  cases hp : etParse st.files fp with
  | ok r => rfl
  | error er => cases er <;> rfl

theorem read_body_congr (fp : String) (st st' : SysState) (h : st.files = st'.files) :
    (read_body fp st).1 = (read_body fp st').1 := by
  unfold read_body
  rw [h]
  cases hp : etParse st'.files fp with
  | ok r => rfl
  | error er => cases er <;> rfl

theorem write_body_log (fp : String) (r : XMLElement) (st : SysState) :
    ((write_body fp r st).2).logFile = st.logFile ∧
    ((write_body fp r st).2).console = st.console := by
  unfold write_body
  cases hw : etWrite st.files fp (.xml (indentTree "  " r)) with
  | ok fs2 => exact ⟨rfl, rfl⟩
  | error er => cases er <;> exact ⟨rfl, rfl⟩

theorem append_body_log (fp : String) (n : XMLElement) (st : SysState) :
    ((append_body fp n st).2).logFile = st.logFile ∧
    ((append_body fp n st).2).console = st.console := by
  unfold append_body
  cases hp : etParse st.files fp with
  | error er => cases er <;> exact ⟨rfl, rfl⟩
  | ok r =>
    dsimp only
    cases hw : etWrite st.files fp (.xml (indentTree "  " (r.appendChild n))) with
    | ok fs2 => exact ⟨rfl, rfl⟩
    | error er => cases er <;> exact ⟨rfl, rfl⟩

theorem read_body_error (fp : String) (st : SysState) (e : AppError)
    (h : (read_body fp st).1 = .error e) : ∃ reason, e = .corrupted fp reason := by
  unfold read_body at h
  cases hp : etParse st.files fp with
  | ok r => rw [hp] at h; cases h
  | error er =>
    rw [hp] at h
    cases er with
    | parseError m => injection h with h2; exact ⟨_, h2.symm⟩
    | permissionError => injection h with h2; exact ⟨_, h2.symm⟩
    | ioError m => injection h with h2; exact ⟨_, h2.symm⟩

theorem write_body_error (fp : String) (r : XMLElement) (st : SysState) (e : AppError)
    (h : (write_body fp r st).1 = .error e) : ∃ reason, e = .corrupted fp reason := by
  unfold write_body at h
  cases hw : etWrite st.files fp (.xml (indentTree "  " r)) with
  | ok fs2 => rw [hw] at h; cases h
  | error er =>
    rw [hw] at h
    cases er with
    | parseError m => injection h with h2; exact ⟨_, h2.symm⟩
    | permissionError => injection h with h2; exact ⟨_, h2.symm⟩
    | ioError m => injection h with h2; exact ⟨_, h2.symm⟩

theorem append_body_error (fp : String) (n : XMLElement) (st : SysState) (e : AppError)
    (h : (append_body fp n st).1 = .error e) : ∃ reason, e = .corrupted fp reason := by
  unfold append_body at h
  cases hp : etParse st.files fp with
  | error er =>
    rw [hp] at h
    cases er with
    | parseError m => injection h with h2; exact ⟨_, h2.symm⟩
    | permissionError => injection h with h2; exact ⟨_, h2.symm⟩
    | ioError m => injection h with h2; exact ⟨_, h2.symm⟩
  | ok r =>
    rw [hp] at h
    dsimp only at h
    cases hw : etWrite st.files fp (.xml (indentTree "  " (r.appendChild n))) with
    | ok fs2 => rw [hw] at h; cases h
    | error er =>
      rw [hw] at h
      cases er with
      | parseError m => injection h with h2; exact ⟨_, h2.symm⟩
      | permissionError => injection h with h2; exact ⟨_, h2.symm⟩
      | ioError m => injection h with h2; exact ⟨_, h2.symm⟩

theorem write_spec (h : Handler) (r : XMLElement) (st : SysState)
    (hg : goodPerm st.files h.filepath = true) :
    (XMLFileHandler.write h r st).1 = .ok () ∧
    (XMLFileHandler.write h r st).2.1.files =
      setData st.files h.filepath (.xml (indentTree "  " r)) := by
  have hs := stepState_files Dest.file "write" st
  have hg' : goodPerm (stepState .file "write" st).files h.filepath = true := by
    rw [hs]; exact hg
  have hb := write_body_good h.filepath r (stepState .file "write" st) hg'
  constructor
  · unfold XMLFileHandler.write
    rw [logged_result, hb]
  · unfold XMLFileHandler.write
    rw [logged_files, hb]
    simp [hs]

theorem read_spec_xml (h : Handler) (st : SysState) (e : FileEntry) (r : XMLElement)
    (hf : findFile st.files h.filepath = some e) (hr : e.canRead = true)
    (hd : e.data = FileData.xml r) :
    (XMLFileHandler.read h st).1 = .ok r := by
  have hs := stepState_files Dest.console "read" st
  have hf' : findFile (stepState .console "read" st).files h.filepath = some e := by
    rw [hs]; exact hf
  have hb := read_body_ok h.filepath (stepState .console "read" st) e r hf' hr hd
  unfold XMLFileHandler.read
  rw [logged_result, hb]

theorem append_spec (h : Handler) (n : XMLElement) (st : SysState)
    (e : FileEntry) (r : XMLElement)
    (hf : findFile st.files h.filepath = some e) (hd : e.data = FileData.xml r)
    (hr : e.canRead = true) (hw : e.canWrite = true) :
    (XMLFileHandler.append h n st).1 = .ok () ∧
    (XMLFileHandler.append h n st).2.1.files =
      setData st.files h.filepath (.xml (indentTree "  " (r.appendChild n))) := by
  have hs := stepState_files Dest.file "append" st
  have hf' : findFile (stepState .file "append" st).files h.filepath = some e := by
    rw [hs]; exact hf
  have hb := append_body_good h.filepath n (stepState .file "append" st) e r hf' hd hr hw
  constructor
  · unfold XMLFileHandler.append
    rw [logged_result, hb]
  · unfold XMLFileHandler.append
    rw [logged_files, hb]
    simp [hs]

theorem read_after_write (h : Handler) (r : XMLElement) (st : SysState)
    (hg : goodPerm st.files h.filepath = true) :
    (XMLFileHandler.read h (XMLFileHandler.write h r st).2.1).1 =
      .ok (indentTree "  " r) ∧
    goodPerm (XMLFileHandler.write h r st).2.1.files h.filepath = true := by
  have hfiles := (write_spec h r st hg).2
  have hfind := findFile_setData st.files h.filepath (.xml (indentTree "  " r))
  have hcr : (((findFile st.files h.filepath).map FileEntry.canRead).getD true) = true := by
    unfold goodPerm at hg
    cases hf : findFile st.files h.filepath with
    | none => simp
    | some e =>
      rw [hf] at hg
      simp only [Bool.and_eq_true] at hg
      simp [hg.1]
  constructor
  · have hfind' : findFile (XMLFileHandler.write h r st).2.1.files h.filepath =
        some ⟨FileData.xml (indentTree "  " r),
          ((findFile st.files h.filepath).map FileEntry.canRead).getD true,
          ((findFile st.files h.filepath).map FileEntry.canWrite).getD true⟩ := by
      rw [hfiles]; exact hfind
    exact read_spec_xml h _ _ _ hfind' hcr rfl
  · rw [hfiles]
    exact goodPerm_setData st.files h.filepath _ hg

theorem read_preserves_files (h : Handler) (st : SysState) :
    (XMLFileHandler.read h st).2.1.files = st.files := by
  unfold XMLFileHandler.read
  rw [logged_files, read_body_state]
  exact stepState_files _ _ _

/-- C3: a path absent from the filesystem makes construction fail with
`FileNotFoundError` carrying that exact path; a present path makes it
succeed with a handler storing that path. -/
theorem construct_notfound (fp : String) (st : SysState) :
    (findFile st.files fp = none →
      XMLFileHandler.init fp st = .error (.notFound fp)) ∧
    (∀ e, findFile st.files fp = some e →
      XMLFileHandler.init fp st = .ok ⟨fp⟩) := by
  constructor
  · intro hn
    unfold XMLFileHandler.init
    rw [hn]
    rfl
  · intro e he
    unfold XMLFileHandler.init
    rw [he]
    rfl

/-- C10: `read` never modifies the document filesystem, whether it succeeds
or fails: the files component of the state after a `read` call equals the
one before the call. -/
theorem read_frame (h : Handler) (st : SysState) :
    (XMLFileHandler.read h st).2.1.files = st.files :=
  read_preserves_files h st

/-- C7: on every exit path of an audited call — success, watched error or
any other error — the logging destination handle acquired at the start of
the call is closed and detached from the logger before the wrapper
returns. -/
theorem audit_handle_released (α : Type) (mode : Dest) (wn : String)
    (w : AppError → Bool) (name : String)
    (op : SysState → Except AppError α × SysState) (st : SysState) :
    (logged mode wn w name op st).2.2.isOpen = false ∧
    (logged mode wn w name op st).2.2.attached = false := by
  rw [logged_handle]
  exact ⟨rfl, rfl⟩

/-- C4: any error crossing the boundary of `read`, `write` or `append` is a
taxonomy error; in fact it is always a `FileCorruptedError` carrying the
handler's path — every raw library or OS failure has been translated. -/
theorem boundary_error_taxonomy (h : Handler) (r n : XMLElement) (st : SysState) :
    (∀ e, (XMLFileHandler.read h st).1 = .error e →
      ∃ reason, e = .corrupted h.filepath reason) ∧
    (∀ e, (XMLFileHandler.write h r st).1 = .error e →
      ∃ reason, e = .corrupted h.filepath reason) ∧
    (∀ e, (XMLFileHandler.append h n st).1 = .error e →
      ∃ reason, e = .corrupted h.filepath reason) := by
  refine ⟨fun e he => ?_, fun e he => ?_, fun e he => ?_⟩
  · unfold XMLFileHandler.read at he
    rw [logged_result] at he
    exact read_body_error _ _ _ he
  · unfold XMLFileHandler.write at he
    rw [logged_result] at he
    exact write_body_error _ _ _ _ he
  · unfold XMLFileHandler.append at he
    rw [logged_result] at he
    exact append_body_error _ _ _ _ he

theorem read_body_raw (fp : String) (st : SysState) (e : FileEntry) (s : String)
    (hf : findFile st.files fp = some e) (hr : e.canRead = true)
    (hd : e.data = FileData.raw s) :
    (read_body fp st).1 =
      .error (.corrupted fp ("XML помилка: " ++ ("not well-formed: " ++ s))) := by
  unfold read_body etParse
  rw [hf]
  dsimp only
  rw [hd]
  simp [hr]

/-- C5: reading a file whose content is unparseable markup fails with
`FileCorruptedError` on the handler's path whose reason carries the parse
error marker, returns no tree, and leaves the file untouched. -/
theorem read_unparseable_corrupted (h : Handler) (st : SysState)
    (e : FileEntry) (s : String)
    (hf : findFile st.files h.filepath = some e) (hr : e.canRead = true)
    (hd : e.data = FileData.raw s) :
    (∃ m, (XMLFileHandler.read h st).1 =
      .error (.corrupted h.filepath ("XML помилка: " ++ m))) ∧
    (XMLFileHandler.read h st).2.1.files = st.files := by
  constructor
  · refine ⟨"not well-formed: " ++ s, ?_⟩
    unfold XMLFileHandler.read
    rw [logged_result]
    have hf' : findFile (stepState .console "read" st).files h.filepath = some e := by
      rw [stepState_files]; exact hf
    exact read_body_raw h.filepath _ e s hf' hr hd
  · exact read_preserves_files h st

theorem append_body_noparse (fp : String) (n : XMLElement) (st : SysState)
    (e : FileEntry) (s : String)
    (hf : findFile st.files fp = some e) (hd : e.data = FileData.raw s) :
    (∃ reason, (append_body fp n st).1 = .error (.corrupted fp reason)) ∧
    (append_body fp n st).2 = st := by
  by_cases hcr : e.canRead = true
  · have hp : etParse st.files fp = .error (.parseError ("not well-formed: " ++ s)) := by
      unfold etParse
      rw [hf]
      dsimp only
      rw [hd]
      simp [hcr]
    unfold append_body
    rw [hp]
    exact ⟨⟨"XML помилка: " ++ ("not well-formed: " ++ s), rfl⟩, rfl⟩
  · have hcr' : e.canRead = false := by
      cases hb : e.canRead
      · rfl
      · exact absurd hb hcr
    have hp : etParse st.files fp = .error .permissionError := by
      unfold etParse
      rw [hf]
      dsimp only
      simp [hcr']
    unfold append_body
    rw [hp]
    exact ⟨⟨"Немає прав", rfl⟩, rfl⟩

/-- C9: when the document on disk cannot be parsed, `append` fails with
`FileCorruptedError` and the document filesystem is exactly as before the
call: the parse precedes any write, so nothing is partially modified. -/
theorem append_parse_failure_frame (h : Handler) (n : XMLElement) (st : SysState)
    (e : FileEntry) (s : String)
    (hf : findFile st.files h.filepath = some e) (hd : e.data = FileData.raw s) :
    (∃ reason, (XMLFileHandler.append h n st).1 =
      .error (.corrupted h.filepath reason)) ∧
    (XMLFileHandler.append h n st).2.1.files = st.files := by
  have hf' : findFile (stepState .file "append" st).files h.filepath = some e := by
    rw [stepState_files]; exact hf
  have hb := append_body_noparse h.filepath n (stepState .file "append" st) e s hf' hd
  constructor
  · obtain ⟨reason, hre⟩ := hb.1
    refine ⟨reason, ?_⟩
    unfold XMLFileHandler.append
    rw [logged_result]
    exact hre
  · unfold XMLFileHandler.append
    rw [logged_files, hb.2]
    exact stepState_files _ _ _

/-- C1: a root successfully written by `write` is read back with the same
ordered children — equal up to whitespace normalization, which keeps tags,
attributes, all meaningful text/tail content and the nested structure, and
identifies only the blank text/tail fields that `ET.indent` rewrites; and a
second `write` fully replaces the first, so a read after the second write
matches the second root's children alone. -/
theorem write_roundtrip_and_replace (h : Handler) (r r1 r2 : XMLElement)
    (st : SysState) (hg : goodPerm st.files h.filepath = true) :
    ((XMLFileHandler.write h r st).1 = .ok () ∧
      ∃ root, (XMLFileHandler.read h (XMLFileHandler.write h r st).2.1).1 = .ok root ∧
        coreList root.children = coreList r.children) ∧
    (∃ root2,
      (XMLFileHandler.read h
        (XMLFileHandler.write h r2 (XMLFileHandler.write h r1 st).2.1).2.1).1 = .ok root2 ∧
      coreList root2.children = coreList r2.children) := by
  have part1 : ∀ (q : XMLElement) (s : SysState), goodPerm s.files h.filepath = true →
      (XMLFileHandler.write h q s).1 = .ok () ∧
      (∃ root, (XMLFileHandler.read h (XMLFileHandler.write h q s).2.1).1 = .ok root ∧
        coreList root.children = coreList q.children) ∧
      goodPerm (XMLFileHandler.write h q s).2.1.files h.filepath = true := by
    intro q s hgs
    have hws := write_spec h q s hgs
    have hrw := read_after_write h q s hgs
    exact ⟨hws.1,
      ⟨indentTree "  " q, hrw.1, coreList_children_indentTree "  " q rfl⟩, hrw.2⟩
  refine ⟨⟨(part1 r st hg).1, (part1 r st hg).2.1⟩, ?_⟩
  have h1 := part1 r1 st hg
  exact (part1 r2 _ h1.2.2).2.1

theorem appendAll_spec (h : Handler) :
    ∀ (ns : List XMLElement) (st : SysState) (e : FileEntry) (r : XMLElement),
      findFile st.files h.filepath = some e → e.data = FileData.xml r →
      e.canRead = true → e.canWrite = true →
      ∃ e' root', findFile (appendAll h ns st).files h.filepath = some e' ∧
        e'.canRead = true ∧ e'.canWrite = true ∧ e'.data = FileData.xml root' ∧
        coreList root'.children = coreList r.children ++ coreList ns
  | [], st, e, r, hf, hd, hr, hw => ⟨e, r, hf, hr, hw, hd, by simp [coreList]⟩
  | n :: ns, st, e, r, hf, hd, hr, hw => by
    have hstep := (append_spec h n st e r hf hd hr hw).2
    have hfind : findFile (XMLFileHandler.append h n st).2.1.files h.filepath =
        some ⟨FileData.xml (indentTree "  " (r.appendChild n)), e.canRead, e.canWrite⟩ := by
      rw [hstep]
      have hfs := findFile_setData st.files h.filepath
        (.xml (indentTree "  " (r.appendChild n)))
      rw [hf] at hfs
      simpa using hfs
    have hfind' : findFile (XMLFileHandler.append h n st).2.1.files h.filepath =
        some ⟨FileData.xml (indentTree "  " (r.appendChild n)), true, true⟩ := by
      rw [hfind, hr, hw]
    obtain ⟨e', root', h1, h2, h3, h4, h5⟩ :=
      appendAll_spec h ns (XMLFileHandler.append h n st).2.1
        ⟨FileData.xml (indentTree "  " (r.appendChild n)), true, true⟩
        (indentTree "  " (r.appendChild n)) hfind' rfl rfl rfl
    refine ⟨e', root', h1, h2, h3, h4, ?_⟩
    rw [h5, coreList_children_indentTree "  " (r.appendChild n) rfl,
      appendChild_children, coreList_append]
    simp [coreList]

/-- C2: on a parseable document, one `append` makes the new node the last
child while the prior children keep their order, and N sequential `append`
calls yield the old children followed by the N nodes in call order — no
reordering, no deduplication.  Children are compared up to whitespace
normalization, which preserves tags, attributes and all meaningful
text/tail content and identifies only the blank fields `ET.indent`
rewrites. -/
theorem append_order_preserving (h : Handler) (n : XMLElement)
    (ns : List XMLElement) (st : SysState) (e : FileEntry) (r : XMLElement)
    (hf : findFile st.files h.filepath = some e) (hd : e.data = FileData.xml r)
    (hr : e.canRead = true) (hw : e.canWrite = true) :
    ((XMLFileHandler.append h n st).1 = .ok () ∧
      ∃ e' root',
        findFile (XMLFileHandler.append h n st).2.1.files h.filepath = some e' ∧
        e'.data = FileData.xml root' ∧
        coreList root'.children = coreList r.children ++ [core n]) ∧
    (∃ e' root', findFile (appendAll h ns st).files h.filepath = some e' ∧
      e'.data = FileData.xml root' ∧
      coreList root'.children = coreList r.children ++ coreList ns) := by
  have hstep := append_spec h n st e r hf hd hr hw
  constructor
  · refine ⟨hstep.1, ?_⟩
    have hfind : findFile (XMLFileHandler.append h n st).2.1.files h.filepath =
        some ⟨FileData.xml (indentTree "  " (r.appendChild n)), e.canRead, e.canWrite⟩ := by
      rw [hstep.2]
      have hfs := findFile_setData st.files h.filepath
        (.xml (indentTree "  " (r.appendChild n)))
      rw [hf] at hfs
      simpa using hfs
    refine ⟨_, indentTree "  " (r.appendChild n), hfind, rfl, ?_⟩
    rw [coreList_children_indentTree "  " (r.appendChild n) rfl,
      appendChild_children, coreList_append]
    simp [coreList]
  · obtain ⟨e', root', h1, h2, h3, h4, h5⟩ :=
      appendAll_spec h ns st e r hf hd hr hw
    exact ⟨e', root', h1, h4, h5⟩

/-- C6: the audit wrapper is transparent: a successful result is returned
unchanged after a success record; an error of the watched kind is re-raised
as the very same value after an error record carrying the watched kind's
name and the error's message. -/
theorem audit_wrapper_transparent (α : Type) (mode : Dest) (wn : String)
    (w : AppError → Bool) (name : String)
    (op : SysState → Except AppError α × SysState) (st : SysState) :
    (∀ a st2, op (stepState mode name st) = (.ok a, st2) →
      logged mode wn w name op st =
        (.ok a,
          emitH ⟨mode, true, true⟩ ⟨name, LogLevel.info, name ++ " виконано успішно"⟩ st2,
          ⟨mode, false, false⟩)) ∧
    (∀ e st2, op (stepState mode name st) = (.error e, st2) → w e = true →
      logged mode wn w name op st =
        (.error e,
          emitH ⟨mode, true, true⟩ ⟨name, LogLevel.error, wn ++ ": " ++ e.message⟩ st2,
          ⟨mode, false, false⟩)) := by
  constructor
  · intro a st2 hop
    unfold stepState invokeRec at hop
    unfold logged
    dsimp only
    rw [hop]
    rfl
  · intro e st2 hop hw
    unfold stepState invokeRec at hop
    unfold logged
    dsimp only
    rw [hop]
    dsimp only
    rw [if_pos hw]
    rfl

/-- C8: every `write` or `append` call appends exactly one invocation record
and one outcome record to the audit log file and leaves the console alone,
while every `read` call leaves the audit log file unchanged and sends its
invocation and outcome records to the console stream. -/
theorem audit_destinations (h : Handler) (r n : XMLElement) (st : SysState) :
    (∃ rec2, (XMLFileHandler.write h r st).2.1.logFile =
        st.logFile ++ [invokeRec "write", rec2] ∧
      (XMLFileHandler.write h r st).2.1.console = st.console) ∧
    (∃ rec2, (XMLFileHandler.append h n st).2.1.logFile =
        st.logFile ++ [invokeRec "append", rec2] ∧
      (XMLFileHandler.append h n st).2.1.console = st.console) ∧
    ((XMLFileHandler.read h st).2.1.logFile = st.logFile ∧
      ∃ rec2, (XMLFileHandler.read h st).2.1.console =
        st.console ++ [invokeRec "read", rec2]) := by
  refine ⟨?_, ?_, ?_⟩
  · unfold XMLFileHandler.write
    refine logged_log_file _ _ _ _ st (fun s => write_body_log _ _ s) ?_
    intro s e he
    obtain ⟨reason, hre⟩ := write_body_error h.filepath r s e he
    rw [hre]
    rfl
  · unfold XMLFileHandler.append
    refine logged_log_file _ _ _ _ st (fun s => append_body_log _ _ s) ?_
    intro s e he
    obtain ⟨reason, hre⟩ := append_body_error h.filepath n s e he
    rw [hre]
    rfl
  · unfold XMLFileHandler.read
    refine logged_log_console _ _ _ _ st (fun s => ?_) ?_
    · rw [read_body_state]
      exact ⟨rfl, rfl⟩
    · intro s e he
      obtain ⟨reason, hre⟩ := read_body_error h.filepath s e he
      rw [hre]
      rfl

theorem write_roundtrip_and_replace_witness :
    goodPerm demoState.files hDemo.filepath = true ∧
    (((XMLFileHandler.write hDemo dataRoot demoState).1 = .ok () ∧
      ∃ root,
        (XMLFileHandler.read hDemo
          (XMLFileHandler.write hDemo dataRoot demoState).2.1).1 = .ok root ∧
        coreList root.children = coreList dataRoot.children) ∧
    (∃ root2,
      (XMLFileHandler.read hDemo
        (XMLFileHandler.write hDemo newRoot
          (XMLFileHandler.write hDemo dataRoot demoState).2.1).2.1).1 = .ok root2 ∧
      coreList root2.children = coreList newRoot.children)) :=
  ⟨rfl, write_roundtrip_and_replace hDemo dataRoot dataRoot newRoot demoState rfl⟩

theorem append_order_preserving_witness :
    findFile demoState.files hDemo.filepath = some demoEntry ∧
    demoEntry.data = FileData.xml dataRoot ∧
    demoEntry.canRead = true ∧ demoEntry.canWrite = true ∧
    (((XMLFileHandler.append hDemo item2 demoState).1 = .ok () ∧
      ∃ e' root',
        findFile (XMLFileHandler.append hDemo item2 demoState).2.1.files
          hDemo.filepath = some e' ∧
        e'.data = FileData.xml root' ∧
        coreList root'.children = coreList dataRoot.children ++ [core item2]) ∧
    (∃ e' root',
      findFile (appendAll hDemo [item2] demoState).files hDemo.filepath = some e' ∧
      e'.data = FileData.xml root' ∧
      coreList root'.children = coreList dataRoot.children ++ coreList [item2])) :=
  ⟨rfl, rfl, rfl, rfl,
    append_order_preserving hDemo item2 [item2] demoState demoEntry dataRoot
      rfl rfl rfl rfl⟩

theorem construct_notfound_witness :
    findFile demoState.files "missing.xml" = none ∧
    XMLFileHandler.init "missing.xml" demoState =
      .error (.notFound "missing.xml") ∧
    findFile demoState.files "demo.xml" = some demoEntry ∧
    XMLFileHandler.init "demo.xml" demoState = .ok ⟨"demo.xml"⟩ :=
  ⟨rfl, (construct_notfound "missing.xml" demoState).1 rfl, rfl,
    (construct_notfound "demo.xml" demoState).2 demoEntry rfl⟩

theorem boundary_error_taxonomy_witness :
    (XMLFileHandler.read hBad demoState).1 =
      .error (.corrupted "bad.xml"
        ("XML помилка: " ++ ("not well-formed: " ++ "<data><item>Незакритий тег"))) ∧
    ∃ reason,
      (AppError.corrupted "bad.xml"
        ("XML помилка: " ++ ("not well-formed: " ++ "<data><item>Незакритий тег"))) =
        .corrupted hBad.filepath reason :=
  ⟨rfl, (boundary_error_taxonomy hBad dataRoot item2 demoState).1 _ rfl⟩

theorem read_unparseable_corrupted_witness :
    findFile demoState.files hBad.filepath = some badEntry ∧
    badEntry.canRead = true ∧
    badEntry.data = FileData.raw "<data><item>Незакритий тег" ∧
    ((∃ m, (XMLFileHandler.read hBad demoState).1 =
      .error (.corrupted hBad.filepath ("XML помилка: " ++ m))) ∧
    (XMLFileHandler.read hBad demoState).2.1.files = demoState.files) :=
  ⟨rfl, rfl, rfl,
    read_unparseable_corrupted hBad demoState badEntry
      "<data><item>Незакритий тег" rfl rfl rfl⟩

theorem audit_wrapper_transparent_witness :
    okOp (stepState .file "write" demoState) =
      (.ok (), stepState .file "write" demoState) ∧
    logged .file "FileCorruptedError" AppError.isCorrupted "write" okOp demoState =
      (.ok (),
        emitH ⟨.file, true, true⟩
          ⟨"write", LogLevel.info, "write" ++ " виконано успішно"⟩
          (stepState .file "write" demoState),
        ⟨.file, false, false⟩) ∧
    failOp (stepState .file "write" demoState) =
      (.error (.corrupted "demo.xml" "зламано"), stepState .file "write" demoState) ∧
    AppError.isCorrupted (.corrupted "demo.xml" "зламано") = true ∧
    logged .file "FileCorruptedError" AppError.isCorrupted "write" failOp demoState =
      (.error (.corrupted "demo.xml" "зламано"),
        emitH ⟨.file, true, true⟩
          ⟨"write", LogLevel.error,
            "FileCorruptedError" ++ ": " ++
              (AppError.corrupted "demo.xml" "зламано").message⟩
          (stepState .file "write" demoState),
        ⟨.file, false, false⟩) :=
  ⟨rfl,
    (audit_wrapper_transparent Unit .file "FileCorruptedError" AppError.isCorrupted
      "write" okOp demoState).1 () _ rfl,
    rfl, rfl,
    (audit_wrapper_transparent Unit .file "FileCorruptedError" AppError.isCorrupted
      "write" failOp demoState).2 _ _ rfl rfl⟩

theorem append_parse_failure_frame_witness :
    findFile demoState.files hBad.filepath = some badEntry ∧
    badEntry.data = FileData.raw "<data><item>Незакритий тег" ∧
    ((∃ reason, (XMLFileHandler.append hBad item2 demoState).1 =
      .error (.corrupted hBad.filepath reason)) ∧
    (XMLFileHandler.append hBad item2 demoState).2.1.files = demoState.files) :=
  ⟨rfl, rfl,
    append_parse_failure_frame hBad item2 demoState badEntry
      "<data><item>Незакритий тег" rfl rfl⟩
